import Mathlib

/-!
Shallow embedding of the EnemyTeamAnalyserTool aggregation pipeline
(`webscraper.py`, `sheet_summary.py`, `export_data.py`).

Numeric text is modelled over `ℚ`; Python `round` (round-half-even) is
modelled exactly on rationals.  Strings are modelled as Lean `String`s
over their character lists.
-/

/-- Round-half-even (banker's rounding) of a rational to the nearest
integer, as Python's built-in `round` and `numpy.round` do. -/
def roundHalfEven (q : ℚ) : ℤ :=
  let f : ℤ := ⌊q⌋
  let r : ℚ := q - (f : ℚ)
  if r < 1 / 2 then f
  else if 1 / 2 < r then f + 1
  else if f % 2 = 0 then f else f + 1

/-- Python `round(q, k)`: round-half-even to `k` decimal places. -/
def roundTo (k : ℕ) (q : ℚ) : ℚ :=
  (roundHalfEven (q * 10 ^ k) : ℚ) / 10 ^ k

/-- Numeric value of a list of decimal digit characters (most significant
first), as Python `int` applied to a digit string. -/
def natOfDigits (l : List Char) : ℕ :=
  l.foldl (fun n c => 10 * n + (c.toNat - 48)) 0

/-- Python's whitespace set for `str.strip()`:
space, tab, newline, carriage return, vertical tab, form feed. -/
def isPyWs (c : Char) : Bool :=
  c = ' ' || c = '\t' || c = '\n' || c = '\r' || c = Char.ofNat 11 || c = Char.ofNat 12

/-- Python `str.strip()`: remove leading and trailing whitespace. -/
def pyStrip (s : String) : String :=
  ⟨((s.data.dropWhile isPyWs).reverse.dropWhile isPyWs).reverse⟩

/-- The guard `str(i).replace('.', '').isdigit()` from
`aggregate_champion_stats` (webscraper.py lines 151-154): after removing
every `'.'` the text is non-empty and consists of decimal digits. -/
def isNumericText (s : String) : Bool :=
  let t := s.data.filter (fun c => c ≠ '.')
  (!t.isEmpty) && t.all Char.isDigit

/-- Python `float` on a text accepted by `isNumericText` with at most one
decimal point: integer part plus fractional part.  (On text with two or
more decimal points Python `float` raises; such text is given value 0
here and is touched by no theorem below.) -/
def parseDecimal (s : String) : ℚ :=
  let ip := s.data.takeWhile (fun c => c ≠ '.')
  match s.data.dropWhile (fun c => c ≠ '.') with
  | [] => (natOfDigits ip : ℚ)
  | _ :: frac =>
    if frac.contains '.' then 0
    else (natOfDigits ip : ℚ) + (natOfDigits frac : ℚ) / 10 ^ frac.length

/-- The group lambda body from webscraper.py lines 151-154:
`sum(float(i) for i in x if str(i).replace('.', '').isdigit()) / len(x)`.
The divisor is the length of the whole group, not the count of numeric
entries. -/
def numericMean (texts : List String) : ℚ :=
  ((texts.filter isNumericText).map parseDecimal).sum / (texts.length : ℚ)

/-- The numerator of `numericMean`: the sum of the values of the purely
numeric entries only. -/
def numericEntriesSum (texts : List String) : ℚ :=
  ((texts.filter isNumericText).map parseDecimal).sum

/-- One scraped row of the champion-stats table, as assembled in
`get_champion_stats` (webscraper.py lines 103-112). -/
structure RawChampionRow where
  champion : String
  winRate : String
  games : String
  kda : String
  cs : String
  damage : String
  gold : String
  season : String
deriving DecidableEq

/-- Attempt to match the regex `(\d+)W (\d+)L` at the head of a character
list: a maximal non-empty digit run, `'W'`, `' '`, a maximal non-empty
digit run, `'L'`.  (For this pattern greedy matching without backtracking
is exact, since neither `'W'` nor `'L'` is a digit.) -/
def wlMatchAt (l : List Char) : Option (ℕ × ℕ) :=
  let ds1 := l.takeWhile Char.isDigit
  let r1 := l.dropWhile Char.isDigit
  let ds2 := (r1.drop 2).takeWhile Char.isDigit
  let r3 := (r1.drop 2).dropWhile Char.isDigit
  if ds1 ≠ [] ∧ r1.take 2 = ['W', ' '] ∧ ds2 ≠ [] ∧ r3.take 1 = ['L'] then
    some (natOfDigits ds1, natOfDigits ds2)
  else none

/-- Regex search `re.search(r'(\d+)W (\d+)L', s)`: try each start
position left to right and return the first match. -/
def wlSearch : List Char → Option (ℕ × ℕ)
  | [] => none
  | c :: rest => (wlMatchAt (c :: rest)).orElse (fun _ => wlSearch rest)

/-- `combined_df['Games'].str.extract(r'(\d+)W (\d+)L')` followed by
`fillna(0).astype(int)` (webscraper.py lines 141-145): the two captured
numbers of the first match, or `(0, 0)` when the pattern occurs nowhere
in the text. -/
def extractWinsLosses (s : String) : ℕ × ℕ :=
  (wlSearch s.data).getD (0, 0)

/-- Python `str` of a non-negative rational that is a whole number of
tenths, one decimal digit printed (as `str(66.7)` gives `"66.7"`). -/
def renderTenths (q : ℚ) : String :=
  let t := (roundHalfEven (q * 10)).toNat
  toString (t / 10) ++ "." ++ toString (t % 10)

/-- One aggregated per-champion record, the row type of the DataFrame
returned by `aggregate_champion_stats` (the spec's
`AggregatedChampionStat`).  `winRate` is the numeric percentage used for
sorting; `winRateText` is the final string column
`aggregated['Win Rate'].astype(str) + '%'`. -/
structure AggregatedChampionStat where
  champion : String
  totalGames : ℕ
  winRate : ℚ
  winRateText : String
  kda : ℚ
  cs : ℚ
  damage : ℚ
  gold : ℚ
  wins : ℕ
  losses : ℕ
deriving DecidableEq

/-- Python string `<`: lexicographic comparison of the code points. -/
def pyStrLt (a b : List Char) : Bool :=
  match a, b with
  | [], [] => false
  | [], _ :: _ => true
  | _ :: _, [] => false
  | c :: cs, d :: ds =>
    if c.toNat < d.toNat then true
    else if d.toNat < c.toNat then false
    else pyStrLt cs ds

/-- The champion keys of `combined_df.groupby('Champion')`: the distinct
champion names, in ascending Python string order (pandas sorts group
keys). -/
def championKeys (rows : List RawChampionRow) : List String :=
  List.insertionSort (fun a b => pyStrLt b.data a.data = false) (rows.map (·.champion)).dedup

/-- The aggregated record of one champion group (webscraper.py lines
148-161): wins and losses are summed over the group's rows, KDA/CS/
Damage/Gold are `numericMean`s rounded to 2/1/0/0 decimals, win rate is
`round(wins / (total if total != 0 else 1) * 100, 1)`.
The rows of one `groupby('Champion')` group are selected by exact string
match on the champion name, original order preserved. -/
def championGroup (rows : List RawChampionRow) (c : String) : List RawChampionRow :=
  rows.filter (fun r => r.champion == c)

def aggRecord (rows : List RawChampionRow) (c : String) : AggregatedChampionStat :=
  let g := championGroup rows c
  let wl := g.map (fun r => extractWinsLosses r.games)
  let wins := (wl.map Prod.fst).sum
  let losses := (wl.map Prod.snd).sum
  let total := wins + losses
  let wr := roundTo 1 ((wins : ℚ) / (if total = 0 then (1 : ℚ) else (total : ℚ)) * 100)
  { champion := c
    totalGames := total
    winRate := wr
    winRateText := renderTenths wr ++ "%"
    kda := roundTo 2 (numericMean (g.map (·.kda)))
    cs := roundTo 1 (numericMean (g.map (·.cs)))
    damage := roundTo 0 (numericMean (g.map (·.damage)))
    gold := roundTo 0 (numericMean (g.map (·.gold)))
    wins := wins
    losses := losses }

/-- The sort key order of `sort_values(['Total Games', 'Win Rate'],
ascending=[False, False])`: `a` may come before `b` iff `a` has more
total games, or equally many and at least as high a win rate. -/
def aggBefore (a b : AggregatedChampionStat) : Prop :=
  b.totalGames < a.totalGames ∨ (b.totalGames = a.totalGames ∧ b.winRate ≤ a.winRate)

instance : DecidableRel aggBefore := fun a b =>
  inferInstanceAs (Decidable
    (b.totalGames < a.totalGames ∨ (b.totalGames = a.totalGames ∧ b.winRate ≤ a.winRate)))

instance : IsTotal AggregatedChampionStat aggBefore where
  total a b := by
    unfold aggBefore
    rcases lt_trichotomy a.totalGames b.totalGames with h | h | h
    · exact Or.inr (Or.inl h)
    · rcases le_total b.winRate a.winRate with hw | hw
      · exact Or.inl (Or.inr ⟨h.symm, hw⟩)
      · exact Or.inr (Or.inr ⟨h, hw⟩)
    · exact Or.inl (Or.inl h)

instance : IsTrans AggregatedChampionStat aggBefore where
  trans a b c hab hbc := by
    unfold aggBefore at *
    rcases hab with h1 | ⟨h1, w1⟩
    · rcases hbc with h2 | ⟨h2, w2⟩
      · exact Or.inl (h2.trans h1)
      · exact Or.inl (lt_of_le_of_lt (le_of_eq h2) h1)
    · rcases hbc with h2 | ⟨h2, w2⟩
      · exact Or.inl (lt_of_lt_of_le h2 (le_of_eq h1))
      · exact Or.inr ⟨h2.trans h1, w2.trans w1⟩

/-- `aggregate_champion_stats` (webscraper.py lines 127-167): `None` on
an empty input collection; otherwise concatenate the tables, group by
champion, aggregate each group, and sort by total games then win rate,
both descending. -/
def aggregate_champion_stats (all_data : List (List RawChampionRow)) :
    Option (List AggregatedChampionStat) :=
  if all_data = [] then none
  else
    let rows := all_data.flatten
    some (List.insertionSort aggBefore ((championKeys rows).map (aggRecord rows)))

/-- The purge step of `build_player_summaries` (sheet_summary.py lines
167-173): keep the header row, and keep exactly the data rows whose
first cell, stripped, differs from the team being processed.  An empty
sheet (`if all_values:` false) is left unchanged. -/
def purge_team_rows (team : String) (values : List (List String)) : List (List String) :=
  match values with
  | [] => []
  | header :: rest => header :: rest.filter (fun row => pyStrip (row.headD "") ≠ team)

/-- `normalize_champion_name` (export_data.py lines 68-75):
`re.sub(r'[^a-zA-Z0-9]', '', name).lower()`.  The regex keeps exactly
the ASCII letters and digits, so the subsequent Python `lower()` acts
only on `A`-`Z`, which Lean's `Char.toLower` maps identically. -/
def normalize_champion_name (name : String) : String :=
  ⟨(name.data.filter (fun c => c.isAlpha || c.isDigit)).map Char.toLower⟩

/-- `cs = ''.join(c for c in cs if c.isdigit() or c == '.')`
(webscraper.py lines 97-99). -/
def cleanNumeric (s : String) : String :=
  ⟨s.data.filter (fun c => c.isDigit || c = '.')⟩

/-- Python `s or '0'` for a string: `'0'` when `s` is empty
(webscraper.py lines 108-110). -/
def orZero (s : String) : String :=
  if s = "" then "0" else s

/-- The outcome the browser environment hands the per-row parsing loop
of `get_champion_stats` for one `rt-tr-group` element: either some cell
access raises (the row-level `except` at line 114 skips the row), or the
row yields the texts of its cells, already resolved through the
primary-`strong`/text-split fallbacks of lines 57-94. -/
inductive RowFetch where
  | parseError : RowFetch
  | fields (champion winRate games kda cs damage gold : String) : RowFetch

/-- The per-row body of `get_champion_stats` (webscraper.py lines
50-116): a raised row is skipped, a row whose stripped champion name is
empty is skipped, and otherwise CS/Damage/Gold are sanitized to digits
and dots with `'0'` replacing an empty result. -/
def parseRow (season : String) : RowFetch → Option RawChampionRow
  | .parseError => none
  | .fields c wr g k cs d go =>
    let name := pyStrip c
    if name = "" then none
    else some
      { champion := name
        winRate := wr
        games := g
        kda := k
        cs := orZero (cleanNumeric cs)
        damage := orZero (cleanNumeric d)
        gold := orZero (cleanNumeric go)
        season := season }

/-- How the environment behaves during one call of `get_champion_stats`:
the Chrome driver construction at line 33 (outside the `try`) may raise;
`driver.get` or any later statement of the outer `try` may raise (line
120 catches it); the wait for the stats table may time out (line 42
catches it); or the table materializes with a list of row outcomes. -/
inductive FetchEnv where
  | driverError : FetchEnv
  | navError : FetchEnv
  | tableTimeout : FetchEnv
  | tableRows (rows : List RowFetch) : FetchEnv

/-- What a call of `get_champion_stats` does at its boundary: an
exception escapes to the caller, the Python value `None` is returned
(line 122), or a DataFrame of raw rows is returned (possibly empty). -/
inductive FetchResult where
  | raised : FetchResult
  | noneResult : FetchResult
  | table (rows : List RawChampionRow) : FetchResult
deriving DecidableEq

/-- `get_champion_stats` (webscraper.py lines 8-125) as a function of
the environment's behaviour: driver-construction failure propagates
(line 33 is outside the `try`); a timeout waiting for the table returns
an empty DataFrame (line 44); any other caught failure returns `None`
(line 122); otherwise each row is parsed by `parseRow`. -/
def get_champion_stats (season : String) : FetchEnv → FetchResult
  | .driverError => .raised
  | .navError => .noneResult
  | .tableTimeout => .table []
  | .tableRows rows => .table (rows.filterMap (parseRow season))

/-- The games text contains an occurrence of the pattern
`(\d+)W (\d+)L`: somewhere in it, a non-empty digit run, `'W'`, a space,
a non-empty digit run, `'L'`. -/
def wlOccurrence (s : String) : Prop :=
  ∃ pre ds1 ds2 post, s.data = pre ++ (ds1 ++ 'W' :: ' ' :: (ds2 ++ 'L' :: post)) ∧
    ds1 ≠ [] ∧ (∀ c ∈ ds1, c.isDigit = true) ∧ ds2 ≠ [] ∧ (∀ c ∈ ds2, c.isDigit = true)

/-- Sample raw rows used by the concrete witness instances below. -/
def sampleRowA : RawChampionRow :=
  { champion := "Ahri", winRate := "50%", games := "1W 1L", kda := "3.0",
    cs := "5.0", damage := "400", gold := "350", season := "current" }

def sampleRowZ : RawChampionRow :=
  { champion := "Zed", winRate := "75%", games := "3W 1L", kda := "4.0",
    cs := "6.0", damage := "500", gold := "380", season := "24" }

def kdaRow1 : RawChampionRow :=
  { champion := "Ahri", winRate := "50%", games := "0W 0L", kda := "3.5",
    cs := "5", damage := "400", gold := "350", season := "current" }

def kdaRow2 : RawChampionRow := { kdaRow1 with kda := "N/A" }

def kdaRow3 : RawChampionRow := { kdaRow1 with kda := "4.0" }

section Helpers

/-- Splitting `takeWhile`/`dropWhile` at the first element violating the
predicate. -/
theorem takeWhile_dropWhile_append {p : Char → Bool} (ds : List Char) (c : Char)
    (t : List Char) (hds : ∀ x ∈ ds, p x = true) (hc : p c = false) :
    (ds ++ c :: t).takeWhile p = ds ∧ (ds ++ c :: t).dropWhile p = c :: t := by
  induction ds with
  | nil => simp [List.takeWhile, List.dropWhile, hc]
  | cons d ds ih =>
    have hd : p d = true := hds d (List.mem_cons_self d ds)
    have ih2 := ih (fun x hx => hds x (List.mem_cons_of_mem d hx))
    refine ⟨?_, ?_⟩
    · rw [List.cons_append, List.takeWhile_cons, if_pos hd, ih2.1]
    · rw [List.cons_append, List.dropWhile_cons, if_pos hd, ih2.2]

/-- The head matcher succeeds on an explicit `(\d+)W (\d+)L` shape and
captures the two digit runs. -/
theorem wlMatchAt_of_shape (ds1 ds2 post : List Char) (h1 : ds1 ≠ []) (h2 : ds2 ≠ [])
    (hd1 : ∀ c ∈ ds1, c.isDigit = true) (hd2 : ∀ c ∈ ds2, c.isDigit = true) :
    wlMatchAt (ds1 ++ 'W' :: ' ' :: (ds2 ++ 'L' :: post)) =
      some (natOfDigits ds1, natOfDigits ds2) := by
  obtain ⟨tw1, dw1⟩ :=
    takeWhile_dropWhile_append ds1 'W' (' ' :: (ds2 ++ 'L' :: post)) hd1 (by decide)
  obtain ⟨tw2, dw2⟩ := takeWhile_dropWhile_append ds2 'L' post hd2 (by decide)
  simp only [wlMatchAt]
  rw [tw1, dw1]
  simp only [List.drop_succ_cons, List.drop_zero]
  rw [tw2, dw2]
  simp [h1, h2]

/-- A successful head match exposes the matched shape. -/
theorem wlMatchAt_decomp {l : List Char} {p : ℕ × ℕ} (h : wlMatchAt l = some p) :
    ∃ ds1 ds2 post, l = ds1 ++ 'W' :: ' ' :: (ds2 ++ 'L' :: post) ∧
      ds1 ≠ [] ∧ (∀ c ∈ ds1, c.isDigit = true) ∧ ds2 ≠ [] ∧
      (∀ c ∈ ds2, c.isDigit = true) := by
  simp only [wlMatchAt] at h
  split at h
  · rename_i hcond
    obtain ⟨h1, h2, h3, h4⟩ := hcond
    obtain rfl : p = (natOfDigits (l.takeWhile Char.isDigit),
        natOfDigits (((l.dropWhile Char.isDigit).drop 2).takeWhile Char.isDigit)) :=
      (Option.some.injEq _ _).mp h.symm
    refine ⟨l.takeWhile Char.isDigit,
      ((l.dropWhile Char.isDigit).drop 2).takeWhile Char.isDigit,
      (((l.dropWhile Char.isDigit).drop 2).dropWhile Char.isDigit).drop 1, ?_, h1,
      (fun c hc => List.mem_takeWhile_imp hc), h3,
      (fun c hc => List.mem_takeWhile_imp hc)⟩
    have e1 : l = l.takeWhile Char.isDigit ++ l.dropWhile Char.isDigit :=
      (List.takeWhile_append_dropWhile _ _).symm
    have e2 : l.dropWhile Char.isDigit = 'W' :: ' ' :: (l.dropWhile Char.isDigit).drop 2 := by
      conv_lhs => rw [← List.take_append_drop 2 (l.dropWhile Char.isDigit)]
      rw [h2]
      rfl
    have e3 : (l.dropWhile Char.isDigit).drop 2 =
        ((l.dropWhile Char.isDigit).drop 2).takeWhile Char.isDigit ++
          ((l.dropWhile Char.isDigit).drop 2).dropWhile Char.isDigit :=
      (List.takeWhile_append_dropWhile _ _).symm
    have e4 : ((l.dropWhile Char.isDigit).drop 2).dropWhile Char.isDigit =
        'L' :: ((((l.dropWhile Char.isDigit).drop 2).dropWhile Char.isDigit).drop 1) := by
      conv_lhs =>
        rw [← List.take_append_drop 1 (((l.dropWhile Char.isDigit).drop 2).dropWhile Char.isDigit)]
      rw [h4]
      rfl
    calc l = l.takeWhile Char.isDigit ++ l.dropWhile Char.isDigit := e1
      _ = l.takeWhile Char.isDigit ++ ('W' :: ' ' :: (l.dropWhile Char.isDigit).drop 2) :=
        congrArg _ e2
      _ = l.takeWhile Char.isDigit ++ ('W' :: ' ' ::
            (((l.dropWhile Char.isDigit).drop 2).takeWhile Char.isDigit ++
              ((l.dropWhile Char.isDigit).drop 2).dropWhile Char.isDigit)) := by
        exact congrArg (fun x => l.takeWhile Char.isDigit ++ ('W' :: ' ' :: x)) e3
      _ = l.takeWhile Char.isDigit ++ ('W' :: ' ' ::
            (((l.dropWhile Char.isDigit).drop 2).takeWhile Char.isDigit ++
              'L' :: ((((l.dropWhile Char.isDigit).drop 2).dropWhile Char.isDigit).drop 1))) := by
        exact congrArg (fun x => l.takeWhile Char.isDigit ++ ('W' :: ' ' ::
          (((l.dropWhile Char.isDigit).drop 2).takeWhile Char.isDigit ++ x))) e4
  · exact absurd h (by simp)

/-- A successful search happened at some split of the text. -/
theorem wlSearch_decomp {l : List Char} {p : ℕ × ℕ} (h : wlSearch l = some p) :
    ∃ pre t, l = pre ++ t ∧ wlMatchAt t = some p := by
  induction l with
  | nil => exact absurd h (by simp [wlSearch])
  | cons c rest ih =>
    rw [wlSearch] at h
    cases hm : wlMatchAt (c :: rest) with
    | some q =>
      rw [hm] at h
      simp only [Option.orElse, Option.some.injEq] at h
      exact ⟨[], c :: rest, rfl, by rw [hm, h]⟩
    | none =>
      rw [hm] at h
      simp only [Option.orElse] at h
      obtain ⟨pre, t, heq, hmt⟩ := ih h
      exact ⟨c :: pre, t, by simp [heq], hmt⟩

/-- If the head matcher succeeds on a suffix, the search succeeds. -/
theorem wlSearch_isSome_of_suffix (pre t : List Char) {p : ℕ × ℕ}
    (h : wlMatchAt t = some p) : (wlSearch (pre ++ t)).isSome = true := by
  induction pre with
  | nil =>
    cases t with
    | nil => exact absurd h (by simp [wlMatchAt])
    | cons c r => simp [wlSearch, h]
  | cons c pre ih =>
    rw [List.cons_append, wlSearch]
    cases hm : wlMatchAt (c :: (pre ++ t)) with
    | some q => simp
    | none => simpa using ih

/-- A text containing the `(\d+)W (\d+)L` pattern makes the search
succeed. -/
theorem wlSearch_isSome_of_occurrence {s : String} (h : wlOccurrence s) :
    (wlSearch s.data).isSome = true := by
  obtain ⟨pre, ds1, ds2, post, heq, h1, hd1, h2, hd2⟩ := h
  rw [heq]
  exact wlSearch_isSome_of_suffix pre _ (wlMatchAt_of_shape ds1 ds2 post h1 h2 hd1 hd2)

theorem char_toNat_ofNat {n : ℕ} (h : n.isValidChar) : (Char.ofNat n).toNat = n := by
  rw [Char.ofNat, dif_pos h]
  simp [Char.ofNatAux, Char.toNat, UInt32.toNat]

theorem char_isUpper_iff (c : Char) : c.isUpper = true ↔ 65 ≤ c.toNat ∧ c.toNat ≤ 90 := by
  simp [Char.isUpper, UInt32.le_def, BitVec.le_def, Char.toNat, UInt32.toNat]

theorem char_isLower_iff (c : Char) : c.isLower = true ↔ 97 ≤ c.toNat ∧ c.toNat ≤ 122 := by
  simp [Char.isLower, UInt32.le_def, BitVec.le_def, Char.toNat, UInt32.toNat]

theorem toLower_eq_self (c : Char) (h : ¬(65 ≤ c.toNat ∧ c.toNat ≤ 90)) : c.toLower = c := by
  rw [Char.toLower, if_neg h]

theorem toLower_toNat_of_upper (c : Char) (h : c.isUpper = true) :
    (c.toLower).toNat = c.toNat + 32 := by
  rw [char_isUpper_iff] at h
  rw [Char.toLower, if_pos h]
  exact char_toNat_ofNat (Or.inl (by omega))

/-- `Char.toLower` keeps an ASCII-alphanumeric character alphanumeric,
produces a lowercase letter or digit, and is then a fixed point. -/
theorem alnum_toLower (c : Char) (h : (c.isAlpha || c.isDigit) = true) :
    ((c.toLower).isLower || (c.toLower).isDigit) = true ∧ c.toLower.toLower = c.toLower := by
  by_cases hu : c.isUpper = true
  · have ht := toLower_toNat_of_upper c hu
    rw [char_isUpper_iff] at hu
    have hlow : (c.toLower).isLower = true := (char_isLower_iff _).mpr (by omega)
    exact ⟨by simp [hlow], toLower_eq_self _ (by omega)⟩
  · have hld : (c.isLower || c.isDigit) = true := by
      simp [Char.isAlpha, hu] at h
      simpa using h
    have hn : ¬(65 ≤ c.toNat ∧ c.toNat ≤ 90) := fun hb => hu ((char_isUpper_iff c).mpr hb)
    have he : c.toLower = c := toLower_eq_self c hn
    rw [he]
    exact ⟨hld, he⟩

theorem map_eq_self {α : Type} {l : List α} {f : α → α} (h : ∀ x ∈ l, f x = x) :
    l.map f = l := by
  induction l with
  | nil => rfl
  | cons a l ih => simp_all

/-- Inverting the non-empty branch of `aggregate_champion_stats`. -/
theorem agg_eq_sorted {all_data : List (List RawChampionRow)}
    {out : List AggregatedChampionStat} (h : aggregate_champion_stats all_data = some out) :
    out = List.insertionSort aggBefore
      ((championKeys all_data.flatten).map (aggRecord all_data.flatten)) := by
  unfold aggregate_champion_stats at h
  split at h
  · exact absurd h (by simp)
  · exact (Option.some.injEq _ _).mp h.symm

/-- Every output record is the aggregate of one champion group. -/
theorem mem_agg_output {all_data : List (List RawChampionRow)}
    {out : List AggregatedChampionStat} {r : AggregatedChampionStat}
    (h : aggregate_champion_stats all_data = some out) (hr : r ∈ out) :
    ∃ c ∈ championKeys all_data.flatten, r = aggRecord all_data.flatten c := by
  rw [agg_eq_sorted h] at hr
  rw [List.mem_insertionSort] at hr
  obtain ⟨c, hc, hrc⟩ := List.mem_map.mp hr
  exact ⟨c, hc, hrc.symm⟩

theorem aggRecord_totalGames (rows : List RawChampionRow) (c : String) :
    (aggRecord rows c).totalGames = (aggRecord rows c).wins + (aggRecord rows c).losses := rfl

theorem aggRecord_winRate (rows : List RawChampionRow) (c : String) :
    (aggRecord rows c).winRate = roundTo 1 (((aggRecord rows c).wins : ℚ) /
      (if (aggRecord rows c).totalGames = 0 then (1 : ℚ)
        else ((aggRecord rows c).totalGames : ℚ)) * 100) := rfl

theorem aggRecord_winRateText (rows : List RawChampionRow) (c : String) :
    (aggRecord rows c).winRateText = renderTenths (aggRecord rows c).winRate ++ "%" := rfl

theorem aggRecord_champion (rows : List RawChampionRow) (c : String) :
    (aggRecord rows c).champion = c := rfl

theorem aggRecord_kda (rows : List RawChampionRow) (c : String) :
    (aggRecord rows c).kda = roundTo 2 (numericMean ((championGroup rows c).map (·.kda))) := rfl

theorem aggRecord_cs (rows : List RawChampionRow) (c : String) :
    (aggRecord rows c).cs = roundTo 1 (numericMean ((championGroup rows c).map (·.cs))) := rfl

theorem aggRecord_damage (rows : List RawChampionRow) (c : String) :
    (aggRecord rows c).damage =
      roundTo 0 (numericMean ((championGroup rows c).map (·.damage))) := rfl

theorem aggRecord_gold (rows : List RawChampionRow) (c : String) :
    (aggRecord rows c).gold = roundTo 0 (numericMean ((championGroup rows c).map (·.gold))) := rfl

/-- The divisor of `numericMean` over a mapped group is the group size. -/
theorem numericMean_eq_sum_div_length (g : List RawChampionRow) (f : RawChampionRow → String) :
    numericMean (g.map f) = numericEntriesSum (g.map f) / (g.length : ℚ) := by
  rw [numericMean, numericEntriesSum, List.length_map]

/-- The non-empty branch of `aggregate_champion_stats`, spelled out. -/
theorem agg_some (all_data : List (List RawChampionRow)) (h : all_data ≠ []) :
    aggregate_champion_stats all_data = some (List.insertionSort aggBefore
      ((championKeys all_data.flatten).map (aggRecord all_data.flatten))) := by
  unfold aggregate_champion_stats
  rw [if_neg h]

/-- Evaluated aggregate for the three-row KDA sample: a single Ahri
group. -/
theorem agg_kdaRows_eval :
    aggregate_champion_stats [[kdaRow1, kdaRow2, kdaRow3]] =
      some [aggRecord [kdaRow1, kdaRow2, kdaRow3] "Ahri"] := by
  rw [agg_some [[kdaRow1, kdaRow2, kdaRow3]] (by simp)]
  rw [show championKeys ([[kdaRow1, kdaRow2, kdaRow3]] :
    List (List RawChampionRow)).flatten = ["Ahri"] from by decide]
  simp only [List.map_cons, List.map_nil, List.insertionSort, List.orderedInsert]
  rfl

end Helpers

/-- C1 counterexample: for a champion whose three rows carry KDA texts
"3.5", "N/A", "4.0", the aggregated KDA is 2.5 (sum 7.5 divided by the
full group size 3), not the claimed 3.75 (divisor 2). -/
theorem kda_mean_counterexample :
    aggregate_champion_stats [[kdaRow1, kdaRow2, kdaRow3]] =
      some [aggRecord [kdaRow1, kdaRow2, kdaRow3] "Ahri"] ∧
    (aggRecord [kdaRow1, kdaRow2, kdaRow3] "Ahri").kda = 5 / 2 ∧
    ((5 : ℚ) / 2) ≠ 15 / 4 := by
  refine ⟨agg_kdaRows_eval, ?_, by norm_num⟩
  · rw [aggRecord_kda]
    rw [show (championGroup [kdaRow1, kdaRow2, kdaRow3] "Ahri").map (·.kda) =
      ["3.5", "N/A", "4.0"] from by decide]
    rw [numericMean]
    rw [show (["3.5", "N/A", "4.0"].filter isNumericText) = ["3.5", "4.0"] from by decide]
    simp only [List.map_cons, List.map_nil, List.sum_cons, List.sum_nil, List.length_cons,
      List.length_nil]
    rw [show parseDecimal "3.5" = ((natOfDigits ['3'] : ℚ) +
        (natOfDigits ['5'] : ℚ) / 10 ^ (['5'] : List Char).length) from rfl,
      show parseDecimal "4.0" = ((natOfDigits ['4'] : ℚ) +
        (natOfDigits ['0'] : ℚ) / 10 ^ (['0'] : List Char).length) from rfl,
      show natOfDigits ['3'] = 3 from by decide, show natOfDigits ['5'] = 5 from by decide,
      show natOfDigits ['4'] = 4 from by decide, show natOfDigits ['0'] = 0 from by decide]
    norm_num [roundTo, roundHalfEven]

/-- C1 (amended): each aggregated KDA/CS/Damage/Gold is the sum of the
purely numeric entries of the champion's rows divided by the total
number of rows of that champion — non-numeric entries contribute
nothing to the sum but still count in the divisor. -/
theorem agg_mean_divides_by_group_size :
    ∀ (all_data : List (List RawChampionRow)) (out : List AggregatedChampionStat)
      (r : AggregatedChampionStat),
      aggregate_champion_stats all_data = some out → r ∈ out →
      r.kda = roundTo 2 (numericEntriesSum ((championGroup all_data.flatten r.champion).map
          (·.kda)) / ((championGroup all_data.flatten r.champion).length : ℚ)) ∧
      r.cs = roundTo 1 (numericEntriesSum ((championGroup all_data.flatten r.champion).map
          (·.cs)) / ((championGroup all_data.flatten r.champion).length : ℚ)) ∧
      r.damage = roundTo 0 (numericEntriesSum ((championGroup all_data.flatten r.champion).map
          (·.damage)) / ((championGroup all_data.flatten r.champion).length : ℚ)) ∧
      r.gold = roundTo 0 (numericEntriesSum ((championGroup all_data.flatten r.champion).map
          (·.gold)) / ((championGroup all_data.flatten r.champion).length : ℚ)) := by
  intro all_data out r h hr
  obtain ⟨c, hc, rfl⟩ := mem_agg_output h hr
  simp only [aggRecord_champion, aggRecord_kda, aggRecord_cs, aggRecord_damage,
    aggRecord_gold, numericMean_eq_sum_div_length]
  exact ⟨trivial, trivial, trivial, trivial⟩

/-- C1 (amended) witness at the three-row KDA sample. -/
theorem agg_mean_divisor_witness :
    aggregate_champion_stats [[kdaRow1, kdaRow2, kdaRow3]] =
      some [aggRecord [kdaRow1, kdaRow2, kdaRow3] "Ahri"] ∧
    (aggRecord [kdaRow1, kdaRow2, kdaRow3] "Ahri").kda =
      roundTo 2 (numericEntriesSum ((championGroup
          ([[kdaRow1, kdaRow2, kdaRow3]] : List (List RawChampionRow)).flatten
          (aggRecord [kdaRow1, kdaRow2, kdaRow3] "Ahri").champion).map (·.kda)) /
        ((championGroup ([[kdaRow1, kdaRow2, kdaRow3]] : List (List RawChampionRow)).flatten
          (aggRecord [kdaRow1, kdaRow2, kdaRow3] "Ahri").champion).length : ℚ)) :=
  ⟨agg_kdaRows_eval,
    (agg_mean_divides_by_group_size _ _ _ agg_kdaRows_eval (List.mem_singleton.mpr rfl)).1⟩

/-- C2: every aggregated record satisfies total_games = wins + losses;
when total_games > 0 its win rate is round(wins / total_games * 100, 1)
rendered with a trailing percent sign, and when total_games = 0 the
rendered win rate is "0.0%". -/
theorem agg_total_and_win_rate_invariant :
    ∀ (all_data : List (List RawChampionRow)) (out : List AggregatedChampionStat)
      (r : AggregatedChampionStat),
      aggregate_champion_stats all_data = some out → r ∈ out →
      r.totalGames = r.wins + r.losses ∧
      (r.totalGames ≠ 0 →
        r.winRate = roundTo 1 ((r.wins : ℚ) / (r.totalGames : ℚ) * 100) ∧
        r.winRateText = renderTenths r.winRate ++ "%") ∧
      (r.totalGames = 0 → r.winRateText = "0.0%") := by
  intro all_data out r h hr
  obtain ⟨c, hc, rfl⟩ := mem_agg_output h hr
  refine ⟨aggRecord_totalGames _ _, fun h0 => ?_, fun h0 => ?_⟩
  · exact ⟨by rw [aggRecord_winRate, if_neg h0], aggRecord_winRateText _ _⟩
  · have hw : (aggRecord all_data.flatten c).wins = 0 := by
      have ht := aggRecord_totalGames all_data.flatten c
      omega
    rw [aggRecord_winRateText, aggRecord_winRate, if_pos h0, hw, Nat.cast_zero]
    rw [show roundTo 1 ((0 : ℚ) / 1 * 100) = 0 from by norm_num [roundTo, roundHalfEven]]
    rw [show renderTenths 0 = toString ((roundHalfEven ((0 : ℚ) * 10)).toNat / 10) ++ "." ++
      toString ((roundHalfEven ((0 : ℚ) * 10)).toNat % 10) from rfl]
    rw [show roundHalfEven ((0 : ℚ) * 10) = 0 from by norm_num [roundHalfEven]]
    decide

/-- Evaluated aggregate for the single sample row. -/
theorem agg_sampleA_eval :
    aggregate_champion_stats [[sampleRowA]] = some [aggRecord [sampleRowA] "Ahri"] := by
  rw [agg_some [[sampleRowA]] (by simp)]
  rw [show championKeys ([[sampleRowA]] : List (List RawChampionRow)).flatten =
    ["Ahri"] from by decide]
  simp only [List.map_cons, List.map_nil, List.insertionSort, List.orderedInsert]
  rfl

/-- C2 witness at a concrete two-game row. -/
theorem agg_invariant_witness :
    aggregate_champion_stats [[sampleRowA]] = some [aggRecord [sampleRowA] "Ahri"] ∧
    (aggRecord [sampleRowA] "Ahri").totalGames ≠ 0 ∧
    (aggRecord [sampleRowA] "Ahri").winRate =
      roundTo 1 (((aggRecord [sampleRowA] "Ahri").wins : ℚ) /
        ((aggRecord [sampleRowA] "Ahri").totalGames : ℚ) * 100) ∧
    (aggRecord [sampleRowA] "Ahri").winRateText =
      renderTenths (aggRecord [sampleRowA] "Ahri").winRate ++ "%" :=
  ⟨agg_sampleA_eval, by decide,
    (agg_total_and_win_rate_invariant _ _ _ agg_sampleA_eval
      (List.mem_singleton.mpr rfl)).2.1 (by decide)⟩

/-- C3: a games text that is exactly a digit run, `W`, space, digit run,
`L` yields exactly those two numbers; a games text containing no
occurrence of the pattern anywhere yields wins = 0 and losses = 0. -/
theorem games_text_extraction :
    (∀ ds1 ds2 : List Char, ds1 ≠ [] → ds2 ≠ [] →
      (∀ c ∈ ds1, c.isDigit = true) → (∀ c ∈ ds2, c.isDigit = true) →
      extractWinsLosses ⟨ds1 ++ 'W' :: ' ' :: (ds2 ++ ['L'])⟩ =
        (natOfDigits ds1, natOfDigits ds2)) ∧
    (∀ s : String, ¬ wlOccurrence s → extractWinsLosses s = (0, 0)) := by
  constructor
  · intro ds1 ds2 h1 h2 hd1 hd2
    have hm : wlMatchAt (ds1 ++ 'W' :: ' ' :: (ds2 ++ 'L' :: ([] : List Char))) =
        some (natOfDigits ds1, natOfDigits ds2) :=
      wlMatchAt_of_shape ds1 ds2 [] h1 h2 hd1 hd2
    cases ds1 with
    | nil => exact absurd rfl h1
    | cons d ds =>
      rw [extractWinsLosses]
      rw [show (String.mk ((d :: ds) ++ 'W' :: ' ' :: (ds2 ++ ['L']))).data =
        d :: (ds ++ 'W' :: ' ' :: (ds2 ++ ['L'])) from rfl]
      rw [wlSearch]
      rw [show (d :: (ds ++ 'W' :: ' ' :: (ds2 ++ ['L']))) =
        ((d :: ds) ++ 'W' :: ' ' :: (ds2 ++ 'L' :: ([] : List Char))) from rfl] 
      rw [hm]
      rfl
  · intro s hocc
    cases hs : wlSearch s.data with
    | none => rw [extractWinsLosses, hs]; rfl
    | some p =>
      exfalso
      obtain ⟨pre, t, heq, hmt⟩ := wlSearch_decomp hs
      obtain ⟨ds1, ds2, post, ht, h1, hd1, h2, hd2⟩ := wlMatchAt_decomp hmt
      exact hocc ⟨pre, ds1, ds2, post, by rw [heq, ht], h1, hd1, h2, hd2⟩

/-- C3 witness: "12W 3L" extracts (12, 3); "no games" extracts (0, 0). -/
theorem games_text_extraction_witness :
    extractWinsLosses ⟨['1', '2'] ++ 'W' :: ' ' :: (['3'] ++ ['L'])⟩ =
      (natOfDigits ['1', '2'], natOfDigits ['3']) ∧
    natOfDigits ['1', '2'] = 12 ∧ natOfDigits ['3'] = 3 ∧
    extractWinsLosses "no games" = (0, 0) :=
  ⟨games_text_extraction.1 ['1', '2'] ['3'] (by decide) (by decide) (by decide) (by decide),
   by decide, by decide,
   games_text_extraction.2 "no games"
     (fun h => absurd (wlSearch_isSome_of_occurrence h) (by decide))⟩

/-- C4: the output sequence is non-increasing in total games, and among
records with equal total games non-increasing in win rate. -/
theorem agg_output_sorted :
    ∀ (all_data : List (List RawChampionRow)) (out : List AggregatedChampionStat),
      all_data ≠ [] → aggregate_champion_stats all_data = some out →
      out.Pairwise (fun a b => b.totalGames ≤ a.totalGames ∧
        (b.totalGames = a.totalGames → b.winRate ≤ a.winRate)) := by
  intro all_data out hne h
  rw [agg_eq_sorted h]
  refine (List.sorted_insertionSort aggBefore _).imp ?_
  intro a b hab
  rcases hab with hlt | ⟨heq, hw⟩
  · exact ⟨le_of_lt hlt, fun heq2 => absurd heq2 (ne_of_lt hlt)⟩
  · exact ⟨le_of_eq heq, fun _ => hw⟩

/-- Evaluated aggregate for the two-champion sample: Zed (4 games)
sorts before Ahri (2 games). -/
theorem agg_sample_pair_eval :
    aggregate_champion_stats [[sampleRowA, sampleRowZ]] =
      some [aggRecord [sampleRowA, sampleRowZ] "Zed",
        aggRecord [sampleRowA, sampleRowZ] "Ahri"] := by
  rw [agg_some [[sampleRowA, sampleRowZ]] (by simp)]
  rw [show championKeys ([[sampleRowA, sampleRowZ]] : List (List RawChampionRow)).flatten =
    ["Ahri", "Zed"] from by decide]
  simp only [List.map_cons, List.map_nil, List.insertionSort, List.orderedInsert]
  rw [if_neg (show ¬ aggBefore
    (aggRecord ([[sampleRowA, sampleRowZ]] : List (List RawChampionRow)).flatten "Ahri")
    (aggRecord ([[sampleRowA, sampleRowZ]] : List (List RawChampionRow)).flatten "Zed")
    from by decide)]
  rfl

/-- C4 witness at the two-champion sample. -/
theorem agg_sorted_witness :
    ([[sampleRowA, sampleRowZ]] : List (List RawChampionRow)) ≠ [] ∧
    aggregate_champion_stats [[sampleRowA, sampleRowZ]] =
      some [aggRecord [sampleRowA, sampleRowZ] "Zed",
        aggRecord [sampleRowA, sampleRowZ] "Ahri"] ∧
    List.Pairwise (fun a b => b.totalGames ≤ a.totalGames ∧
        (b.totalGames = a.totalGames → b.winRate ≤ a.winRate))
      [aggRecord [sampleRowA, sampleRowZ] "Zed",
        aggRecord [sampleRowA, sampleRowZ] "Ahri"] :=
  ⟨by simp, agg_sample_pair_eval, agg_output_sorted _ _ (by simp) agg_sample_pair_eval⟩

/-- C5 counterexample: a failure of `driver.get` inside the `try` is
caught and returns the Python value `None`, not an empty row table; and
a failure while constructing the browser driver escapes the function
entirely. -/
theorem fetch_failure_not_empty_table :
    get_champion_stats "current" FetchEnv.navError = FetchResult.noneResult ∧
    FetchResult.noneResult ≠ FetchResult.table [] ∧
    get_champion_stats "current" FetchEnv.driverError = FetchResult.raised :=
  ⟨rfl, by decide, rfl⟩

/-- C5 (amended): the timeout waiting for the statistics table is
converted to an empty row table; any other caught failure is converted
to an absent (None) result; a driver-construction failure propagates;
and a materialized table is parsed row by row. -/
theorem get_champion_stats_boundary (season : String) :
    get_champion_stats season FetchEnv.tableTimeout = FetchResult.table [] ∧
    get_champion_stats season FetchEnv.navError = FetchResult.noneResult ∧
    get_champion_stats season FetchEnv.driverError = FetchResult.raised ∧
    ∀ rows, get_champion_stats season (FetchEnv.tableRows rows) =
      FetchResult.table (rows.filterMap (parseRow season)) :=
  ⟨rfl, rfl, rfl, fun _ => rfl⟩

/-- C6: an empty input collection produces an absent result, not a
record sequence and not an error. -/
theorem aggregate_empty_input : aggregate_champion_stats [] = none := by
  simp [aggregate_champion_stats]

/-- C8 counterexample: a data row whose TeamName " A" differs from the
team "A" being processed is nevertheless removed by the purge, because
the code compares the stripped first cell. -/
theorem purge_removes_differing_team_row :
    purge_team_rows "A" [["TeamName", "Name"], [" A", "p"], ["B", "q"]] =
      [["TeamName", "Name"], ["B", "q"]] ∧ (" A" : String) ≠ "A" :=
  ⟨by decide, by decide⟩

/-- C8 (amended): the purge keeps the header row, keeps data rows in
order and unchanged exactly when their stripped first cell differs from
the team being processed, and leaves an empty sheet unchanged. -/
theorem purge_team_rows_spec (team : String) (header : List String)
    (rest : List (List String)) :
    (purge_team_rows team (header :: rest)).head? = some header ∧
    (purge_team_rows team (header :: rest)).tail.Sublist rest ∧
    (∀ row, row ∈ (purge_team_rows team (header :: rest)).tail ↔
      row ∈ rest ∧ pyStrip (row.headD "") ≠ team) ∧
    purge_team_rows team [] = [] := by
  refine ⟨rfl, ?_, ?_, rfl⟩
  · rw [show (purge_team_rows team (header :: rest)).tail =
      rest.filter (fun row => pyStrip (row.headD "") ≠ team) from rfl]
    exact List.filter_sublist rest
  · intro row
    rw [show (purge_team_rows team (header :: rest)).tail =
      rest.filter (fun row => pyStrip (row.headD "") ≠ team) from rfl]
    simp [List.mem_filter]

/-- C9: the aggregate depends only on the concatenation of the input
tables, hence re-running it on any re-grouping of the same raw rows
(in particular on the same input) yields an identical output sequence. -/
theorem aggregate_depends_only_on_flatten :
    ∀ d1 d2 : List (List RawChampionRow), d1 ≠ [] → d2 ≠ [] →
      d1.flatten = d2.flatten →
      aggregate_champion_stats d1 = aggregate_champion_stats d2 := by
  intro d1 d2 h1 h2 hj
  unfold aggregate_champion_stats
  rw [if_neg h1, if_neg h2, hj]

/-- C9 witness: splitting the same two rows into one table or two tables
gives the same aggregate. -/
theorem aggregate_regroup_witness :
    ([[sampleRowA], [sampleRowZ]] : List (List RawChampionRow)) ≠ [] ∧
    ([[sampleRowA, sampleRowZ]] : List (List RawChampionRow)) ≠ [] ∧
    ([[sampleRowA], [sampleRowZ]] : List (List RawChampionRow)).flatten =
      ([[sampleRowA, sampleRowZ]] : List (List RawChampionRow)).flatten ∧
    aggregate_champion_stats [[sampleRowA], [sampleRowZ]] =
      aggregate_champion_stats [[sampleRowA, sampleRowZ]] :=
  ⟨by simp, by simp, by decide,
    aggregate_depends_only_on_flatten _ _ (by simp) (by simp) (by decide)⟩

/-- C10: champion-name normalization is idempotent, and every character
of its output is a lowercase ASCII letter or a digit. -/
theorem normalize_champion_name_idempotent :
    (∀ s, normalize_champion_name (normalize_champion_name s) = normalize_champion_name s) ∧
    (∀ s c, c ∈ (normalize_champion_name s).data → (c.isLower || c.isDigit) = true) := by
  have hmem : ∀ s c, c ∈ (normalize_champion_name s).data →
      ∃ d, (d.isAlpha || d.isDigit) = true ∧ Char.toLower d = c := by
    intro s c hc
    rw [show (normalize_champion_name s).data =
      (s.data.filter (fun x => x.isAlpha || x.isDigit)).map Char.toLower from rfl] at hc
    obtain ⟨d, hd, hdc⟩ := List.mem_map.mp hc
    exact ⟨d, (List.mem_filter.mp hd).2, hdc⟩
  have hout : ∀ s c, c ∈ (normalize_champion_name s).data → (c.isLower || c.isDigit) = true := by
    intro s c hc
    obtain ⟨d, hd, rfl⟩ := hmem s c hc
    exact (alnum_toLower d hd).1
  refine ⟨?_, hout⟩
  intro s
  have hall : ∀ x ∈ (normalize_champion_name s).data, (x.isAlpha || x.isDigit) = true := by
    intro x hx
    have hld := hout s x hx
    cases hl : x.isLower with
    | true => simp [Char.isAlpha, hl]
    | false =>
      rw [hl] at hld
      simp only [Bool.false_or] at hld
      simp [hld]
  have hfix : ∀ x ∈ (normalize_champion_name s).data, Char.toLower x = x := by
    intro x hx
    obtain ⟨d, hd, rfl⟩ := hmem s x hx
    exact (alnum_toLower d hd).2
  rw [show normalize_champion_name (normalize_champion_name s) =
    String.mk (((normalize_champion_name s).data.filter
      (fun x => x.isAlpha || x.isDigit)).map Char.toLower) from rfl]
  rw [List.filter_eq_self.mpr hall, map_eq_self hfix]

/-- C10 witness at a concrete name. -/
theorem normalize_idempotent_witness :
    normalize_champion_name (normalize_champion_name "KaiSa 99") =
      normalize_champion_name "KaiSa 99" ∧
    ('k'.isLower || 'k'.isDigit) = true :=
  ⟨normalize_champion_name_idempotent.1 "KaiSa 99",
   normalize_champion_name_idempotent.2 "KaiSa 99" 'k' (by decide)⟩
